import Mathlib

/-!
Shallow embedding of the KrunnerBitwarden plugin sources
(`bwcli.py`, `rbwcli.py`, `secret.py`, `krunner.py`, `mi_krunner_bwcli.py`)
and verification of the specification's claims about them.

Python strings are modelled as Lean `String`s together with explicit,
list-based re-implementations of the Python string methods the source
uses (`startswith`, `lower`, `islower`, `strip`), restricted to ASCII
case semantics.  Rational numbers stand in for Python floats: every
similarity score in the source is an exact rational built from integer
counts, and the source only ever compares and maximises scores, so the
translation is exact.  Scores are built with `mkRat` so that concrete
instances evaluate inside the kernel.
-/

namespace KBW

/-- Python `s.startswith(pre)`. -/
def pyStartsWith (s pre : String) : Bool := pre.data.isPrefixOf s.data

/-- ASCII model of Python `c.isupper()` for a single character. -/
def pyCharIsUpper (c : Char) : Bool := 65 ≤ c.toNat && c.toNat ≤ 90

/-- ASCII model of Python `c.islower()` for a single character. -/
def pyCharIsLower (c : Char) : Bool := 97 ≤ c.toNat && c.toNat ≤ 122

/-- ASCII model of Python `c.lower()` for a single character. -/
def pyCharLower (c : Char) : Char :=
  if 65 ≤ c.toNat && c.toNat ≤ 90 then Char.ofNat (c.toNat + 32) else c

/-- Python `s.lower()`. -/
def pyLower (s : String) : String := ⟨s.data.map pyCharLower⟩

/-- Python `s.islower()`: at least one cased character and no upper-case one
(ASCII model). -/
def pyIslower (s : String) : Bool :=
  s.data.any pyCharIsLower && s.data.all (fun c => !(pyCharIsUpper c))

/-- Python `s.strip()`: remove leading and trailing whitespace. -/
def pyStrip (s : String) : String :=
  ⟨((s.data.dropWhile Char.isWhitespace).reverse.dropWhile Char.isWhitespace).reverse⟩

/-- The `0.8` prefix floor used throughout the source. -/
def r08 : ℚ := mkRat 4 5

/-- The `0.4` relevance cut-off used throughout the source. -/
def r04 : ℚ := mkRat 2 5

/-- The `strfix` helper as selected in `secret.search` and `bwcli.sort_entries`:
lower-case the compared string iff the search term is entirely lower-case. -/
def strfix (search_term : String) : String → String :=
  if pyIslower search_term then pyLower else id

/-- Multiset character overlap: for each distinct character the minimum of its
occurrence counts in the two strings, summed (the match count of difflib's
`quick_ratio`). -/
def charMatches (a b : String) : ℕ :=
  (a.data.dedup.map (fun c => min (a.data.count c) (b.data.count c))).sum

/-- difflib `SequenceMatcher.quick_ratio()`: `2*matches/(len(a)+len(b))`,
and `1.0` when both strings are empty (difflib's `_calculate_ratio`). -/
def quickRatio (a b : String) : ℚ :=
  if a.data.length + b.data.length = 0 then 1
  else mkRat (2 * charMatches a b) (a.data.length + b.data.length)

/-- Sanity: `quickRatio` is the quotient the spec describes. -/
theorem quickRatio_eq_div (a b : String) (h : a.data.length + b.data.length ≠ 0) :
    quickRatio a b = 2 * charMatches a b / (a.data.length + b.data.length) := by
  simp only [quickRatio, if_neg h, Rat.mkRat_eq_div]
  push_cast
  ring

/-- One comparison of `secret.search` (secret.py lines 135-139): the
`quick_ratio` of the search term against the case-fixed compared string,
floored at `0.8` when below it and the fixed string starts with the term. -/
def secretScoreFixed (search_term fixed : String) : ℚ :=
  if decide (quickRatio search_term fixed < r08) && pyStartsWith fixed search_term then r08
  else quickRatio search_term fixed

/-- The full per-string score of the secret-storage variant (`secret.search`),
case-folding rule included. -/
def score (search_term compare_with : String) : ℚ :=
  secretScoreFixed search_term (strfix search_term compare_with)

/-- Note that `difflib.SequenceMatcher.set_seq2` returns `None`; `bwcli.priority_term`
evaluates `diff.set_seq2(term) or 0`, which is therefore always `0`. -/
def set_seq2_result : Option ℚ := none

/-- Embeds `bwcli.priority_term` = `rbwcli.priority_term` (bwcli.py lines 150-155).
The compared `term` is already case-fixed by the caller (`priority_entry`). -/
def priority_term (search_term term : String) : ℚ :=
  max (set_seq2_result.getD 0) (if pyStartsWith term search_term then r08 else 0)

theorem pyCharLower_of_not_upper {c : Char} (h : pyCharIsUpper c = false) :
    pyCharLower c = c := by
  unfold pyCharIsUpper at h
  unfold pyCharLower
  simp [h]

theorem pyLower_of_islower {s : String} (h : pyIslower s = true) :
    pyLower s = s := by
  unfold pyIslower at h
  rw [Bool.and_eq_true] at h
  have hall := h.2
  simp only [List.all_eq_true] at hall
  have hl : s.data.map pyCharLower = s.data := by
    calc s.data.map pyCharLower = s.data.map id := by
          apply List.map_congr_left
          intro c hc
          have := hall c hc
          simp only [Bool.not_eq_true'] at this
          exact pyCharLower_of_not_upper this
      _ = s.data := List.map_id s.data
  show (⟨s.data.map pyCharLower⟩ : String) = s
  rw [hl]

theorem charMatches_self (a : String) : charMatches a a = a.data.length := by
  unfold charMatches
  simp only [min_self]
  exact List.sum_map_count_dedup_eq_length a.data

theorem quickRatio_self (a : String) : quickRatio a a = 1 := by
  unfold quickRatio
  by_cases h : a.data.length + a.data.length = 0
  · rw [if_pos h]
  · rw [if_neg h, charMatches_self, Rat.mkRat_eq_div]
    rw [div_eq_one_iff_eq (by exact_mod_cast h)]
    push_cast
    ring

theorem strfix_self (a : String) : strfix a a = a := by
  unfold strfix
  by_cases h : pyIslower a = true
  · rw [if_pos h, pyLower_of_islower h]
  · rw [if_neg h]
    rfl

theorem score_self (a : String) : score a a = 1 := by
  unfold score secretScoreFixed
  rw [strfix_self, quickRatio_self]
  have hd : decide ((1 : ℚ) < r08) = false := by decide
  rw [hd]
  simp

/-- Claim C2: `score(a, a) == 1.0` was claimed for every backend variant.  It
holds for the secret-storage variant (first conjunct, for all strings), but the
CLI variants' `priority_term` computes `max(set_seq2(...) or 0, 0.8)` and
`set_seq2` returns `None`, so the overlap ratio is never computed there and the
self-score is `0.8`, not `1.0` (remaining conjuncts, at the input `"ab"`). -/
theorem score_self_one_vs_priority_term :
    (∀ a : String, score a a = 1) ∧
    priority_term "ab" "ab" = mkRat 4 5 ∧ (mkRat 4 5 : ℚ) ≠ 1 :=
  ⟨score_self, by decide, by decide⟩

theorem secretScoreFixed_ge_of_startsWith (q f : String) (h : pyStartsWith f q = true) :
    r08 ≤ secretScoreFixed q f := by
  unfold secretScoreFixed
  rw [h]
  by_cases hr : quickRatio q f < r08
  · rw [decide_eq_true hr]
    simp
  · rw [decide_eq_false hr]
    simpa using le_of_not_lt hr

theorem priority_term_ge_of_startsWith (q f : String) (h : pyStartsWith f q = true) :
    r08 ≤ priority_term q f := by
  unfold priority_term
  rw [h]
  simp

/-- Claim C5: if the candidate starts with the query after the case-folding
rule (both lower-cased when the query is entirely lower-case, unchanged
otherwise), then both variants score the pair at least `0.8`: the
secret-storage `score` and the CLI `priority_term` (applied, as in
`priority_entry`, to the case-fixed candidate). -/
theorem score_startsWith_ge (q c : String)
    (h : (if pyIslower q then pyStartsWith (pyLower c) (pyLower q)
          else pyStartsWith c q) = true) :
    r08 ≤ score q c ∧ r08 ≤ priority_term q (strfix q c) := by
  have hpre : pyStartsWith (strfix q c) q = true := by
    by_cases hq : pyIslower q = true
    · have hfix : strfix q c = pyLower c := by unfold strfix; rw [if_pos hq]
      rw [if_pos hq, pyLower_of_islower hq] at h
      rw [hfix]
      exact h
    · have hfix : strfix q c = c := by unfold strfix; rw [if_neg hq]; rfl
      rw [if_neg hq] at h
      rw [hfix]
      exact h
  exact ⟨secretScoreFixed_ge_of_startsWith q _ hpre, priority_term_ge_of_startsWith q _ hpre⟩

/-- Witness for C5 at query `"git"`, candidate `"GitHub"`. -/
theorem score_startsWith_ge_witness :
    ((if pyIslower "git" then pyStartsWith (pyLower "GitHub") (pyLower "git")
      else pyStartsWith "GitHub" "git") = true) ∧
    (r08 ≤ score "git" "GitHub" ∧ r08 ≤ priority_term "git" (strfix "git" "GitHub")) :=
  ⟨by decide, score_startsWith_ge "git" "GitHub" (by decide)⟩

/-! ## A model of Python's stable `sorted(..., reverse=True)`

Python's `sorted` is a stable sort; with `reverse=True` it yields the
descending order in which elements with equal keys keep their original
relative order.  Any stable sort produces that same unique list, so we model
it by stable descending insertion: a new element is placed after every
already-placed element whose key is `≥` its own. -/

def insertDescBy {α : Type} (key : α → ℚ) (e : α) : List α → List α
  | [] => [e]
  | x :: xs => if key x < key e then e :: x :: xs else x :: insertDescBy key e xs

/-- Model of Python `sorted(l, key=key, reverse=True)`. -/
def pySortedDescBy {α : Type} (key : α → ℚ) (l : List α) : List α :=
  l.foldl (fun acc e => insertDescBy key e acc) []

theorem insertDescBy_perm {α : Type} (key : α → ℚ) (e : α) (l : List α) :
    List.Perm (insertDescBy key e l) (e :: l) := by
  induction l with
  | nil => exact List.Perm.refl _
  | cons x xs ih =>
    unfold insertDescBy
    by_cases hc : key x < key e
    · rw [if_pos hc]
    · rw [if_neg hc]
      exact List.Perm.trans (ih.cons x) (List.Perm.swap e x xs)

theorem mem_insertDescBy {α : Type} {key : α → ℚ} {e y : α} {l : List α} :
    y ∈ insertDescBy key e l ↔ y = e ∨ y ∈ l := by
  rw [(insertDescBy_perm key e l).mem_iff]
  simp

theorem insertDescBy_pairwise {α : Type} {key : α → ℚ} {e : α} {l : List α}
    (h : l.Pairwise (fun a b => key b ≤ key a)) :
    (insertDescBy key e l).Pairwise (fun a b => key b ≤ key a) := by
  induction l with
  | nil => simp [insertDescBy]
  | cons x xs ih =>
    rw [List.pairwise_cons] at h
    unfold insertDescBy
    by_cases hc : key x < key e
    · rw [if_pos hc]
      rw [List.pairwise_cons]
      refine ⟨?_, List.Pairwise.cons h.1 h.2⟩
      intro y hy
      rcases List.mem_cons.mp hy with hy | hy
      · rw [hy]; exact le_of_lt hc
      · exact le_trans (h.1 y hy) (le_of_lt hc)
    · rw [if_neg hc]
      rw [List.pairwise_cons]
      refine ⟨?_, ih h.2⟩
      intro y hy
      rcases mem_insertDescBy.mp hy with hy | hy
      · rw [hy]; exact le_of_not_lt hc
      · exact h.1 y hy

theorem insertDescBy_filter_key {α : Type} {key : α → ℚ} {e : α} {l : List α} (p : ℚ)
    (h : l.Pairwise (fun a b => key b ≤ key a)) :
    (insertDescBy key e l).filter (fun x => decide (key x = p)) =
      l.filter (fun x => decide (key x = p)) ++
        (if key e = p then [e] else []) := by
  induction l with
  | nil =>
    by_cases hp : key e = p
    · simp [insertDescBy, List.filter, hp]
    · simp [insertDescBy, List.filter, hp]
  | cons x xs ih =>
    rw [List.pairwise_cons] at h
    unfold insertDescBy
    by_cases hc : key x < key e
    · rw [if_pos hc]
      by_cases hp : key e = p
      · -- every element of `x :: xs` has key `< key e = p`, so its filter is empty
        have hnil : (x :: xs).filter (fun y => decide (key y = p)) = [] := by
          rw [List.filter_eq_nil_iff]
          intro y hy
          have hlt : key y < key e := by
            rcases List.mem_cons.mp hy with hy | hy
            · rw [hy]; exact hc
            · exact lt_of_le_of_lt (h.1 y hy) hc
          simp only [decide_eq_true_eq]
          rw [← hp]
          exact ne_of_lt hlt
        rw [List.filter_cons]
        rw [show (decide (key e = p)) = true from decide_eq_true hp]
        rw [hnil, if_pos hp]
        simp
      · rw [List.filter_cons]
        rw [show (decide (key e = p)) = false from decide_eq_false hp]
        rw [if_neg hp]
        simp
    · rw [if_neg hc]
      rw [List.filter_cons, List.filter_cons]
      by_cases hx : key x = p
      · rw [show (decide (key x = p)) = true from decide_eq_true hx]
        rw [ih h.2]
        simp
      · rw [show (decide (key x = p)) = false from decide_eq_false hx]
        rw [ih h.2]
        simp

theorem foldl_insertDescBy_perm {α : Type} (key : α → ℚ) (l acc : List α) :
    List.Perm (l.foldl (fun a e => insertDescBy key e a) acc) (acc ++ l) := by
  induction l generalizing acc with
  | nil => simp
  | cons x xs ih =>
    rw [List.foldl_cons]
    have h1 : List.Perm (insertDescBy key x acc ++ xs) ((x :: acc) ++ xs) :=
      (insertDescBy_perm key x acc).append_right xs
    have h2 : List.Perm ((x :: acc) ++ xs) (acc ++ x :: xs) := by
      rw [List.cons_append]
      exact (List.perm_middle).symm
    exact List.Perm.trans (ih _) (List.Perm.trans h1 h2)

theorem foldl_insertDescBy_pairwise {α : Type} {key : α → ℚ} {l acc : List α}
    (h : acc.Pairwise (fun a b => key b ≤ key a)) :
    (l.foldl (fun a e => insertDescBy key e a) acc).Pairwise (fun a b => key b ≤ key a) := by
  induction l generalizing acc with
  | nil => exact h
  | cons x xs ih =>
    rw [List.foldl_cons]
    exact ih (insertDescBy_pairwise h)

theorem foldl_insertDescBy_filter_key {α : Type} {key : α → ℚ} {l acc : List α} (p : ℚ)
    (h : acc.Pairwise (fun a b => key b ≤ key a)) :
    (l.foldl (fun a e => insertDescBy key e a) acc).filter (fun x => decide (key x = p)) =
      acc.filter (fun x => decide (key x = p)) ++ l.filter (fun x => decide (key x = p)) := by
  induction l generalizing acc with
  | nil => simp
  | cons x xs ih =>
    rw [List.foldl_cons]
    rw [ih (insertDescBy_pairwise h)]
    rw [insertDescBy_filter_key p h]
    rw [show x :: xs = [x] ++ xs from rfl, List.filter_append]
    rw [List.append_assoc]
    congr 1
    congr 1
    by_cases hx : key x = p
    · rw [if_pos hx]
      simp [List.filter, decide_eq_true hx]
    · rw [if_neg hx]
      simp [List.filter, decide_eq_false hx]

theorem pySortedDescBy_perm {α : Type} (key : α → ℚ) (l : List α) :
    List.Perm (pySortedDescBy key l) l := by
  have := foldl_insertDescBy_perm key l []
  simpa using this

theorem pySortedDescBy_pairwise {α : Type} (key : α → ℚ) (l : List α) :
    (pySortedDescBy key l).Pairwise (fun a b => key b ≤ key a) :=
  foldl_insertDescBy_pairwise (List.Pairwise.nil)

theorem pySortedDescBy_filter_key {α : Type} (key : α → ℚ) (l : List α) (p : ℚ) :
    (pySortedDescBy key l).filter (fun x => decide (key x = p)) =
      l.filter (fun x => decide (key x = p)) := by
  have := @foldl_insertDescBy_filter_key α key l [] p List.Pairwise.nil
  simpa using this

/-! ## The bwcli/rbwcli ranking pipeline (`Entry`, `priority_entry`, `sort_entries`) -/

/-- Result of running a piece of Python code: either a value or an uncaught
exception. -/
inductive PyRes (α : Type) where
  | ok (val : α)
  | exc
deriving DecidableEq

/-- Embeds `bwcli.Entry`: one entry of a search result.  The Python `attributes` set
is modelled as a list in its scan order. -/
structure Entry where
  username : String
  password : String
  name : String
  attributes : List String
  prio : ℚ := 0
  subtext : String := ""
deriving DecidableEq

/-- Embeds `bwcli.priority_entry` (bwcli.py lines 158-165): score every attribute of
the entry (the caller's `strfix` applied to the attribute), stably sort the
`(score, attribute)` pairs descending by score, set the entry's priority to
the top score and its subtext to the space-joined attributes of the top three
pairs.  `r_a[0][0]` raises `IndexError` when the entry has no attributes. -/
def priority_entry (search_term : String) (fix : String → String) (e : Entry) : PyRes Entry :=
  let r_a := e.attributes.map
    (fun attr => (priority_term search_term (fix attr), attr))
  match pySortedDescBy Prod.fst r_a with
  | [] => .exc
  | top :: rest => .ok { e with
      prio := top.1,
      subtext := " ".intercalate (((top :: rest).take 3).map Prod.snd) }

/-- The scoring loop of `bwcli.sort_entries`: apply `priority_entry` to every
entry in order; a raised exception aborts the whole call. -/
def scoreEntries (search_term : String) (fix : String → String) :
    List Entry → PyRes (List Entry)
  | [] => .ok []
  | e :: es =>
    match priority_entry search_term fix e with
    | .exc => .exc
    | .ok e1 =>
      match scoreEntries search_term fix es with
      | .exc => .exc
      | .ok es1 => .ok (e1 :: es1)

/-- Embeds `bwcli.sort_entries` (bwcli.py lines 168-185): pick `strfix` from the
search term's case, score every entry, keep those with priority `> 0.4`, and
return them stably sorted descending by priority.  The source interleaves
scoring and filtering in one loop and sorts the selected entries at the end;
an exception aborts the call in both renderings. -/
def sort_entries (search_term : String) (entries : List Entry) : PyRes (List Entry) :=
  match scoreEntries search_term (strfix search_term) entries with
  | .exc => .exc
  | .ok scored =>
      .ok (pySortedDescBy Entry.prio (scored.filter (fun e => decide (r04 < e.prio))))

/-- Claim C4: whenever `sort_entries` returns (`scored` being the entries with
their computed priorities), its output contains no entry with priority
`≤ 0.4`, contains every scored entry with priority `> 0.4`, is sorted
descending by priority, and ties between equal priorities keep the entries'
original enumeration order (for each priority value `p`, the output's
entries of priority `p` are exactly the surviving scored entries of priority
`p` in their original order). -/
theorem sort_entries_spec (q : String) (es scored out : List Entry)
    (hs : scoreEntries q (strfix q) es = .ok scored)
    (h : sort_entries q es = .ok out) :
    (∀ e ∈ out, r04 < e.prio) ∧
    (∀ e ∈ scored, r04 < e.prio → e ∈ out) ∧
    out.Pairwise (fun a b => b.prio ≤ a.prio) ∧
    (∀ p : ℚ, out.filter (fun e => decide (e.prio = p)) =
      (scored.filter (fun e => decide (r04 < e.prio))).filter
        (fun e => decide (e.prio = p))) := by
  unfold sort_entries at h
  rw [hs] at h
  have hout : out = pySortedDescBy Entry.prio (scored.filter (fun e => decide (r04 < e.prio))) := by
    cases h
    rfl
  subst hout
  refine ⟨?_, ?_, ?_, ?_⟩
  · intro e he
    have := (pySortedDescBy_perm Entry.prio _).mem_iff.mp he
    have := List.mem_filter.mp this
    simpa using this.2
  · intro e he hp
    apply (pySortedDescBy_perm Entry.prio _).mem_iff.mpr
    apply List.mem_filter.mpr
    exact ⟨he, by simpa using hp⟩
  · exact pySortedDescBy_pairwise Entry.prio _
  · intro p
    exact pySortedDescBy_filter_key Entry.prio _ p

/-- The spec's worked ranking example: query `"git"` against a github entry
with two attributes and a gitlab entry with one. -/
def exampleEntries : List Entry :=
  [{ username := "joe", password := "pw", name := "github",
     attributes := ["github", "https://github.com/login"] },
   { username := "joe", password := "pw2", name := "gitlab",
     attributes := ["gitlab"] }]

/-- The list `exampleEntries` after scoring against `"git"`: both score `0.8` by the
prefix rule. -/
def exampleScored : List Entry :=
  [{ username := "joe", password := "pw", name := "github",
     attributes := ["github", "https://github.com/login"],
     prio := mkRat 4 5, subtext := "github https://github.com/login" },
   { username := "joe", password := "pw2", name := "gitlab",
     attributes := ["gitlab"],
     prio := mkRat 4 5, subtext := "gitlab" }]

/-- Witness for C4 at the spec's example: both entries survive with priority
`0.8` and keep their original order on the tie. -/
theorem sort_entries_spec_witness :
    scoreEntries "git" (strfix "git") exampleEntries = .ok exampleScored ∧
    sort_entries "git" exampleEntries = .ok exampleScored ∧
    ((∀ e ∈ exampleScored, r04 < e.prio) ∧
     (∀ e ∈ exampleScored, r04 < e.prio → e ∈ exampleScored) ∧
     exampleScored.Pairwise (fun a b => b.prio ≤ a.prio) ∧
     (∀ p : ℚ, exampleScored.filter (fun e => decide (e.prio = p)) =
       (exampleScored.filter (fun e => decide (r04 < e.prio))).filter
         (fun e => decide (e.prio = p)))) :=
  ⟨by decide, by decide,
   sort_entries_spec "git" exampleEntries exampleScored exampleScored
     (by decide) (by decide)⟩

/-! ## secret.py: terms, collections and `get_terms` -/

/-- Embeds `secret.Term`: one searchable fact `(label, path, attr, value)`. -/
structure Term where
  label : String
  path : String
  attr : String
  value : String
deriving DecidableEq

/-- One secret-storage item as seen over D-Bus: its label, its item path and
its attribute dictionary (in scan order). -/
structure SSItem where
  label : String
  path : String
  attributes : List (String × String)
deriving DecidableEq

/-- One secret-storage collection: whether it is locked, whether an unlock
prompt would be dismissed (secretstorage's `unlock()` returns truthy exactly
on failure), and its items. -/
structure SSCollection where
  locked : Bool
  unlockDismissed : Bool
  items : List SSItem
deriving DecidableEq

/-- The three `STATUS` values of secret.py. -/
inductive STATUS where
  | ok
  | locked
  | noSecretService
deriving DecidableEq

/-- The user-visible string of each status (secret.py lines 45-47). -/
def statusText : STATUS → String
  | .ok => "ok"
  | .locked => "Unlock password manager"
  | .noSecretService => "Found no SecretService password manager"

/-- Embeds `secret.get_collections` (secret.py lines 58-75): walk all collections,
skip locked ones (attempting an unlock first when `unlock` is set), and
report whether any locked collection remained. -/
def get_collections (unlock : Bool) (cols : List SSCollection) : Bool × List SSCollection :=
  cols.foldl
    (fun acc col =>
      if col.locked then
        if !unlock then (true, acc.2)
        else if col.unlockDismissed then (true, acc.2)
        else (acc.1, acc.2 ++ [col])
      else (acc.1, acc.2 ++ [col]))
    (false, [])

/-- The term-collection loop of `secret.get_terms` (lines 87-96): every
attribute of every item of every usable collection with a truthy value and a
name outside the exclusion list. -/
def termsOf (exclude : List String) (cols : List SSCollection) : List Term :=
  cols.flatMap (fun col =>
    col.items.flatMap (fun item =>
      item.attributes.filterMap (fun av =>
        if av.2 ≠ "" ∧ av.1 ∉ exclude then
          some { label := item.label, path := item.path, attr := av.1, value := av.2 }
        else none)))

/-- Embeds `secret.get_terms` (secret.py lines 78-107).  The D-Bus world is the
`conn` parameter: `none` models `dbus_init` raising
`SecretServiceNotAvailableException` (caught; terms stay empty and no locked
collection has been seen), `some cols` a reachable provider. -/
def get_terms (exclude : List String) (unlock : Bool)
    (conn : Option (List SSCollection)) : STATUS × List Term :=
  match conn with
  | none => (STATUS.noSecretService, [])
  | some cols =>
    let found := get_collections unlock cols
    let terms := termsOf exclude found.2
    if terms = [] then
      if found.1 then (STATUS.locked, []) else (STATUS.noSecretService, [])
    else (STATUS.ok, terms)

/-- Whether `get_terms` observed at least one locked collection. -/
def anyLockedFound (unlock : Bool) (conn : Option (List SSCollection)) : Bool :=
  match conn with
  | none => false
  | some cols => (get_collections unlock cols).1

/-- Claim C7, amended: `get_terms` returns OK exactly when the returned term
list is non-empty, Locked exactly when it is empty and a locked collection was
found, and NoProvider exactly when it is empty and no locked collection was
found — which covers both an unreachable provider and a reachable provider
that yielded no terms and no locked collections. -/
theorem get_terms_status_spec (exclude : List String) (unlock : Bool)
    (conn : Option (List SSCollection)) :
    ((get_terms exclude unlock conn).1 = STATUS.ok ↔
      (get_terms exclude unlock conn).2 ≠ []) ∧
    ((get_terms exclude unlock conn).1 = STATUS.locked ↔
      ((get_terms exclude unlock conn).2 = [] ∧ anyLockedFound unlock conn = true)) ∧
    ((get_terms exclude unlock conn).1 = STATUS.noSecretService ↔
      ((get_terms exclude unlock conn).2 = [] ∧ anyLockedFound unlock conn = false)) := by
  unfold get_terms anyLockedFound
  cases conn with
  | none => simp
  | some cols =>
    dsimp only
    by_cases ht : termsOf exclude (get_collections unlock cols).2 = []
    · rw [if_pos ht]
      by_cases hl : (get_collections unlock cols).1 = true
      · rw [if_pos hl]
        simp [hl]
      · rw [if_neg hl]
        simp only [Bool.not_eq_true] at hl
        simp [hl]
    · rw [if_neg ht]
      simp [ht]

/-- A reachable provider with a single unlocked, empty collection. -/
def emptyProvider : Option (List SSCollection) :=
  some [{ locked := false, unlockDismissed := false, items := [] }]

/-- Counterexample to claim C7 as stated: with a reachable provider holding
one unlocked collection with no items, `get_terms` still answers
`NoProvider` ("Found no SecretService password manager"), although a
secret-storage provider was reachable. -/
theorem get_terms_reachable_noprovider :
    get_terms [] false emptyProvider = (STATUS.noSecretService, []) ∧
    emptyProvider.isSome = true := by
  constructor
  · rfl
  · rfl

/-! ## secret.search: grouped ranking by item path -/

/-- Embeds `secret.PathPrioMatches`: a group of matched terms for one item path with
a match priority. -/
structure PathPrioMatches where
  path : String
  prio : ℚ
  terms : List Term
deriving DecidableEq

/-- The source's in-place priority raise `if path_match.prio < ratio:
path_match.prio = ratio` (secret.py lines 149-150). -/
def updPrio (x r : ℚ) : ℚ := if x < r then r else x

/-- One `ratio > 0.4` hit of `secret.search` (lines 142-151): raise the
priority of the first group with the term's path and append the term to it,
or append a fresh group (created with priority `0`, immediately raised). -/
def addMatch (path : String) (r : ℚ) (t : Term) :
    List PathPrioMatches → List PathPrioMatches
  | [] => [{ path := path, prio := updPrio 0 r, terms := [t] }]
  | m :: ms =>
    if m.path = path then
      { m with prio := updPrio m.prio r, terms := m.terms ++ [t] } :: ms
    else m :: addMatch path r t ms

/-- One comparison step of `secret.search` (lines 135-153): score the compared
string (`score` is exactly lines 136-139 applied through `strfix`) and record
a hit when it exceeds `0.4`. -/
def processCw (st : String) (ms : List PathPrioMatches) (t : Term) (cw : String) :
    List PathPrioMatches :=
  if r04 < score st cw then addMatch t.path (score st cw) t ms else ms

/-- One term of `secret.search`'s outer loop: the label is compared first,
then the value (`for compare_with in [term.label, term.value]`). -/
def processTerm (st : String) (ms : List PathPrioMatches) (t : Term) :
    List PathPrioMatches :=
  processCw st (processCw st ms t t.label) t t.value

/-- The accumulation loop of `secret.search`. -/
def searchMatches (st : String) (terms : List Term) : List PathPrioMatches :=
  terms.foldl (processTerm st) []

/-- Embeds `secret.search` (secret.py lines 119-155): accumulate per-path groups and
return them stably sorted descending by priority. -/
def secretSearch (terms : List Term) (st : String) : List PathPrioMatches :=
  pySortedDescBy PathPrioMatches.prio (searchMatches st terms)

theorem addMatch_nil (p : String) (r : ℚ) (t : Term) :
    addMatch p r t [] = [{ path := p, prio := updPrio 0 r, terms := [t] }] := rfl

theorem addMatch_cons (p : String) (r : ℚ) (t : Term) (m : PathPrioMatches)
    (ms : List PathPrioMatches) :
    addMatch p r t (m :: ms) =
      if m.path = p then
        { m with prio := updPrio m.prio r, terms := m.terms ++ [t] } :: ms
      else m :: addMatch p r t ms := rfl

theorem le_updPrio_left (x r : ℚ) : x ≤ updPrio x r := by
  unfold updPrio
  by_cases h : x < r
  · rw [if_pos h]; exact le_of_lt h
  · rw [if_neg h]

theorem le_updPrio_right (x r : ℚ) : r ≤ updPrio x r := by
  unfold updPrio
  by_cases h : x < r
  · rw [if_pos h]
  · rw [if_neg h]; exact le_of_not_lt h

theorem updPrio_cases (x r : ℚ) : updPrio x r = x ∨ updPrio x r = r := by
  unfold updPrio
  by_cases h : x < r
  · right; rw [if_pos h]
  · left; rw [if_neg h]

theorem updPrio_zero_pos {r : ℚ} (hr : 0 < r) : updPrio 0 r = r := if_pos hr

/-- Membership in a single `addMatch`: a surviving old group, the first
path-matching group updated, or a fresh group. -/
theorem mem_addMatch {p : String} {r : ℚ} {t : Term} {ms : List PathPrioMatches}
    {g : PathPrioMatches} (hg : g ∈ addMatch p r t ms) :
    g ∈ ms ∨
    (∃ m ∈ ms, g = { m with prio := updPrio m.prio r, terms := m.terms ++ [t] }) ∨
    g = { path := p, prio := updPrio 0 r, terms := [t] } := by
  induction ms with
  | nil =>
    rw [addMatch_nil] at hg
    exact Or.inr (Or.inr (by simpa using hg))
  | cons m ms ih =>
    rw [addMatch_cons] at hg
    by_cases hp : m.path = p
    · rw [if_pos hp] at hg
      rcases List.mem_cons.mp hg with hg | hg
      · exact Or.inr (Or.inl ⟨m, List.mem_cons_self m ms, hg⟩)
      · exact Or.inl (List.mem_cons_of_mem m hg)
    · rw [if_neg hp] at hg
      rcases List.mem_cons.mp hg with hg | hg
      · exact Or.inl (by rw [hg]; exact List.mem_cons_self m ms)
      · rcases ih hg with h | h | h
        · exact Or.inl (List.mem_cons_of_mem m h)
        · rcases h with ⟨m1, hm1, he⟩
          exact Or.inr (Or.inl ⟨m1, List.mem_cons_of_mem m hm1, he⟩)
        · exact Or.inr (Or.inr h)

/-- Membership after two consecutive `addMatch`es with the same path and term
(a label hit followed by a value hit): a surviving old group, the first
path-matching group updated twice, or a fresh group updated once more. -/
theorem mem_addMatch_addMatch {p : String} {r1 r2 : ℚ} {t : Term}
    {ms : List PathPrioMatches} {g : PathPrioMatches}
    (hg : g ∈ addMatch p r2 t (addMatch p r1 t ms)) :
    g ∈ ms ∨
    (∃ m ∈ ms, g = { m with prio := updPrio (updPrio m.prio r1) r2,
                            terms := (m.terms ++ [t]) ++ [t] }) ∨
    g = { path := p, prio := updPrio (updPrio 0 r1) r2, terms := [t] ++ [t] } := by
  induction ms with
  | nil =>
    rw [addMatch_nil, addMatch_cons, if_pos rfl] at hg
    exact Or.inr (Or.inr (by simpa using hg))
  | cons m ms ih =>
    rw [addMatch_cons] at hg
    by_cases hp : m.path = p
    · rw [if_pos hp, addMatch_cons, if_pos hp] at hg
      rcases List.mem_cons.mp hg with hg | hg
      · exact Or.inr (Or.inl ⟨m, List.mem_cons_self m ms, hg⟩)
      · exact Or.inl (List.mem_cons_of_mem m hg)
    · rw [if_neg hp, addMatch_cons, if_neg hp] at hg
      rcases List.mem_cons.mp hg with hg | hg
      · exact Or.inl (by rw [hg]; exact List.mem_cons_self m ms)
      · rcases ih hg with h | h | h
        · exact Or.inl (List.mem_cons_of_mem m h)
        · rcases h with ⟨m1, hm1, he⟩
          exact Or.inr (Or.inl ⟨m1, List.mem_cons_of_mem m hm1, he⟩)
        · exact Or.inr (Or.inr h)

/-- The per-group invariant behind claim C9: the group is non-empty, its
priority is attained by the score of some member's label or value, and it
bounds the score of every member's label and value. -/
def GroupInv (st : String) (g : PathPrioMatches) : Prop :=
  g.terms ≠ [] ∧
  (∃ t ∈ g.terms, score st t.label = g.prio ∨ score st t.value = g.prio) ∧
  (∀ t ∈ g.terms, score st t.label ≤ g.prio ∧ score st t.value ≤ g.prio)

theorem r04_pos : (0 : ℚ) < r04 := by
  rw [r04]
  decide

theorem groupInv_updated_one {st : String} {m : PathPrioMatches} {t : Term} {r : ℚ}
    (hm : GroupInv st m)
    (hatt : score st t.label = r ∨ score st t.value = r)
    (hb1 : score st t.label ≤ updPrio m.prio r)
    (hb2 : score st t.value ≤ updPrio m.prio r) :
    GroupInv st { m with prio := updPrio m.prio r, terms := m.terms ++ [t] } := by
  obtain ⟨hne, ⟨t0, ht0, hat⟩, hbd⟩ := hm
  refine ⟨by simp, ?_, ?_⟩
  · rcases updPrio_cases m.prio r with hu | hu
    · exact ⟨t0, by simp [ht0], by rw [hu]; exact hat⟩
    · rcases hatt with ha | ha
      · exact ⟨t, by simp, Or.inl (by rw [hu]; exact ha)⟩
      · exact ⟨t, by simp, Or.inr (by rw [hu]; exact ha)⟩
  · intro u hu
    rcases List.mem_append.mp hu with hu | hu
    · have hb := hbd u hu
      have hle := le_updPrio_left m.prio r
      exact ⟨le_trans hb.1 hle, le_trans hb.2 hle⟩
    · have hut : u = t := by simpa using hu
      subst hut
      exact ⟨hb1, hb2⟩

theorem groupInv_updated_two {st : String} {m : PathPrioMatches} {t : Term}
    {r1 r2 : ℚ} (hm : GroupInv st m)
    (ha1 : score st t.label = r1) (ha2 : score st t.value = r2) :
    GroupInv st { m with prio := updPrio (updPrio m.prio r1) r2,
                         terms := (m.terms ++ [t]) ++ [t] } := by
  obtain ⟨hne, ⟨t0, ht0, hat⟩, hbd⟩ := hm
  have hc0 : m.prio ≤ updPrio (updPrio m.prio r1) r2 :=
    le_trans (le_updPrio_left _ _) (le_updPrio_left _ _)
  have hc1 : r1 ≤ updPrio (updPrio m.prio r1) r2 :=
    le_trans (le_updPrio_right _ _) (le_updPrio_left _ _)
  have hc2 : r2 ≤ updPrio (updPrio m.prio r1) r2 := le_updPrio_right _ _
  refine ⟨by simp, ?_, ?_⟩
  · rcases updPrio_cases (updPrio m.prio r1) r2 with hu | hu
    · rcases updPrio_cases m.prio r1 with hv | hv
      · exact ⟨t0, by simp [ht0], by rw [hu, hv]; exact hat⟩
      · exact ⟨t, by simp, Or.inl (by rw [hu, hv]; exact ha1)⟩
    · exact ⟨t, by simp, Or.inr (by rw [hu]; exact ha2)⟩
  · intro u hu
    rcases List.mem_append.mp hu with hu | hu
    · rcases List.mem_append.mp hu with hu | hu
      · have hb := hbd u hu
        exact ⟨le_trans hb.1 hc0, le_trans hb.2 hc0⟩
      · have hut : u = t := by simpa using hu
        subst hut
        exact ⟨by rw [ha1]; exact hc1, by rw [ha2]; exact hc2⟩
    · have hut : u = t := by simpa using hu
      subst hut
      exact ⟨by rw [ha1]; exact hc1, by rw [ha2]; exact hc2⟩

theorem groupInv_fresh_one {st : String} {t : Term} {r : ℚ} (p : String)
    (hr : 0 < r)
    (hatt : score st t.label = r ∨ score st t.value = r)
    (hb1 : score st t.label ≤ r) (hb2 : score st t.value ≤ r) :
    GroupInv st { path := p, prio := updPrio 0 r, terms := [t] } := by
  unfold GroupInv
  rw [updPrio_zero_pos hr]
  refine ⟨by simp, ⟨t, by simp, hatt⟩, ?_⟩
  intro u hu
  have hut : u = t := by simpa using hu
  subst hut
  exact ⟨hb1, hb2⟩

theorem groupInv_fresh_two {st : String} {t : Term} {r1 r2 : ℚ} (p : String)
    (hr1 : 0 < r1)
    (ha1 : score st t.label = r1) (ha2 : score st t.value = r2) :
    GroupInv st { path := p, prio := updPrio (updPrio 0 r1) r2,
                  terms := [t] ++ [t] } := by
  unfold GroupInv
  rw [updPrio_zero_pos hr1]
  refine ⟨by simp, ?_, ?_⟩
  · rcases updPrio_cases r1 r2 with hu | hu
    · exact ⟨t, by simp, Or.inl (by rw [hu]; exact ha1)⟩
    · exact ⟨t, by simp, Or.inr (by rw [hu]; exact ha2)⟩
  · intro u hu
    have hut : u = t := by simpa using hu
    subst hut
    exact ⟨by rw [ha1]; exact le_updPrio_left r1 r2,
           by rw [ha2]; exact le_updPrio_right r1 r2⟩

theorem processTerm_inv {st : String} {ms : List PathPrioMatches} {t : Term}
    (h : ∀ g ∈ ms, GroupInv st g) :
    ∀ g ∈ processTerm st ms t, GroupInv st g := by
  intro g hg
  unfold processTerm processCw at hg
  by_cases h1 : r04 < score st t.label
  · rw [if_pos h1] at hg
    by_cases h2 : r04 < score st t.value
    · rw [if_pos h2] at hg
      rcases mem_addMatch_addMatch hg with hh | ⟨m, hm, he⟩ | hh
      · exact h g hh
      · rw [he]; exact groupInv_updated_two (h m hm) rfl rfl
      · rw [hh]; exact groupInv_fresh_two t.path (lt_trans r04_pos h1) rfl rfl
    · rw [if_neg h2] at hg
      rcases mem_addMatch hg with hh | ⟨m, hm, he⟩ | hh
      · exact h g hh
      · rw [he]
        refine groupInv_updated_one (h m hm) (Or.inl rfl) (le_updPrio_right _ _) ?_
        exact le_trans (le_of_not_lt h2)
          (le_trans (le_of_lt h1) (le_updPrio_right _ _))
      · rw [hh]
        exact groupInv_fresh_one t.path (lt_trans r04_pos h1) (Or.inl rfl)
          (le_refl _) (le_trans (le_of_not_lt h2) (le_of_lt h1))
  · rw [if_neg h1] at hg
    by_cases h2 : r04 < score st t.value
    · rw [if_pos h2] at hg
      rcases mem_addMatch hg with hh | ⟨m, hm, he⟩ | hh
      · exact h g hh
      · rw [he]
        refine groupInv_updated_one (h m hm) (Or.inr rfl) ?_ (le_updPrio_right _ _)
        exact le_trans (le_of_not_lt h1)
          (le_trans (le_of_lt h2) (le_updPrio_right _ _))
      · rw [hh]
        exact groupInv_fresh_one t.path (lt_trans r04_pos h2) (Or.inr rfl)
          (le_trans (le_of_not_lt h1) (le_of_lt h2)) (le_refl _)
    · rw [if_neg h2] at hg
      exact h g hg
theorem searchMatches_inv (st : String) (terms : List Term) :
    ∀ g ∈ searchMatches st terms, GroupInv st g := by
  unfold searchMatches
  suffices h : ∀ (ms : List PathPrioMatches), (∀ g ∈ ms, GroupInv st g) →
      ∀ g ∈ terms.foldl (processTerm st) ms, GroupInv st g by
    exact h [] (by simp)
  induction terms with
  | nil => intro ms hms; simpa using hms
  | cons t ts ih =>
    intro ms hms
    rw [List.foldl_cons]
    exact ih _ (processTerm_inv hms)

/-! ## krunner.py: the secret-storage variant's Match method -/

/-- The trigger prefix (`TRIGGER = 'pass '`). -/
def TRIGGER : String := "pass "

/-- The constant `ICON = 'changes-allow-symbolic'`. -/
def ICON_STR : String := "changes-allow-symbolic"

/-- The constant `MAX_NR_OF_MATCHES = 4`. -/
def MAX_NR_OF_MATCHES : ℕ := 4

/-- The `EXCLUDE_ATTRIBUTES` list of krunner.py. -/
def EXCLUDE_ATTRIBUTES : List String := ["Path", "Notes", "Title", "Uuid"]

/-- The `STATUS_LOCKED` sentinel string. -/
def STATUS_LOCKED_STR : String := "Unlock password manager"

/-- Python `s[n:]`. -/
def pyDrop (s : String) (n : ℕ) : String := ⟨s.data.drop n⟩

/-- One entry of a Match reply:
`(data, display text, icon, match type, relevance, {subtext})`. -/
structure MatchResult where
  data : String
  text : String
  icon : String
  mtype : ℕ
  relevance : ℚ
  subtext : String
deriving DecidableEq

/-- The "unlock" pseudo-result `(STATUS_LOCKED, STATUS_LOCKED, ICON, 80, 1, {})`. -/
def lockedPseudo80 : MatchResult :=
  { data := STATUS_LOCKED_STR, text := STATUS_LOCKED_STR, icon := ICON_STR,
    mtype := 80, relevance := 1, subtext := "" }

/-- The fallback pseudo-result `(STATUS_LOCKED, status, ICON, 10, 0.1, {})`. -/
def unlockPseudo10 (s : STATUS) : MatchResult :=
  { data := STATUS_LOCKED_STR, text := statusText s, icon := ICON_STR,
    mtype := 10, relevance := mkRat 1 10, subtext := "" }

/-- The match-type tier from a priority: `>0.75 → 100`, `>0.5 → 70`, else `10`. -/
def matchTypeOf (prio : ℚ) : ℕ :=
  if mkRat 3 4 < prio then 100 else if mkRat 1 2 < prio then 70 else 10

/-- The label-extraction loop over a group's terms (krunner.py lines 107-114):
all member labels must agree (`assert not label or label == term.label`) and a
label must exist (`assert label is not None`); a failed assert raises. -/
def labelOfTerms : List Term → PyRes String
  | [] => .exc
  | t :: ts => if ts.all (fun u => decide (u.label = t.label)) then .ok t.label else .exc

/-- One output tuple of `krunner.Runner.Match` (lines 107-131): the group's
path as data, the shared label as display text, the tier from the group
priority, the priority as relevance and the comma-joined `attr:value` pairs
of the group's matched terms as subtext. -/
def buildOut (m : PathPrioMatches) : PyRes MatchResult :=
  match labelOfTerms m.terms with
  | .exc => .exc
  | .ok label =>
    .ok { data := m.path, text := label, icon := ICON_STR,
          mtype := matchTypeOf m.prio, relevance := m.prio,
          subtext := ", ".intercalate (m.terms.map (fun t => t.attr ++ ":" ++ t.value)) }

/-- The output loop of `krunner.Runner.Match`; a failed assert aborts the call. -/
def buildOutList : List PathPrioMatches → PyRes (List MatchResult)
  | [] => .ok []
  | m :: ms =>
    match buildOut m with
    | .exc => .exc
    | .ok r =>
      match buildOutList ms with
      | .exc => .exc
      | .ok rs => .ok (r :: rs)

/-- The mutable state of krunner.py's `Runner`: the cached terms and the
staleness timer handle. -/
structure KState where
  terms : List Term
  refresh_timer : Option ℕ
deriving DecidableEq

/-- Embeds `krunner.Runner.Match` (krunner.py lines 76-133).  `conn` is the D-Bus
world seen by `secret.get_terms` if a refresh happens, `freshTimer` the
handle of the staleness timer that `update_terms` would arm. -/
def kMatch (s : KState) (query : String) (conn : Option (List SSCollection))
    (freshTimer : ℕ) : KState × PyRes (List MatchResult) :=
  if pyStartsWith query TRIGGER then
    let q := pyStrip (pyDrop query TRIGGER.length)
    if q = "" then (s, .ok [])
    else if s.terms = [] ∨ s.refresh_timer = none then
      let gt := get_terms EXCLUDE_ATTRIBUTES false conn
      let s1 : KState := { terms := gt.2, refresh_timer := some freshTimer }
      if gt.1 = STATUS.locked then (s1, .ok [lockedPseudo80])
      else if gt.1 ≠ STATUS.ok then (s1, .ok [unlockPseudo10 gt.1])
      else (s1, buildOutList ((secretSearch s1.terms q).take MAX_NR_OF_MATCHES))
    else (s, buildOutList ((secretSearch s.terms q).take MAX_NR_OF_MATCHES))
  else (s, .ok [])

/-- Claim C9, amended: every group returned by the secret-storage `search` has
a non-empty member list and a priority that equals the maximum score over its
members' labels and values; the subtext `Match` synthesizes for a group is the
comma-joined `attr:value` pairs of all its matched terms in scan order (not
the space-joined top-3 attribute values), and the reported relevance is the
group priority. -/
theorem secretSearch_group_prio_subtext (terms : List Term) (st : String) :
    (∀ g ∈ secretSearch terms st,
      g.terms ≠ [] ∧
      (∃ t ∈ g.terms, score st t.label = g.prio ∨ score st t.value = g.prio) ∧
      (∀ t ∈ g.terms, score st t.label ≤ g.prio ∧ score st t.value ≤ g.prio)) ∧
    (∀ (m : PathPrioMatches) (r : MatchResult), buildOut m = .ok r →
      r.relevance = m.prio ∧
      r.subtext = ", ".intercalate (m.terms.map (fun t => t.attr ++ ":" ++ t.value))) := by
  constructor
  · intro g hg
    unfold secretSearch at hg
    have hmem : g ∈ searchMatches st terms :=
      (pySortedDescBy_perm PathPrioMatches.prio _).mem_iff.mp hg
    exact searchMatches_inv st terms g hmem
  · intro m r h
    unfold buildOut at h
    cases hl : labelOfTerms m.terms with
    | exc => rw [hl] at h; simp at h
    | ok label =>
      rw [hl] at h
      cases h
      exact ⟨rfl, rfl⟩

/-- Four terms of one item, every label matching the query, every value not. -/
def c9terms : List Term :=
  [{ label := "ab", path := "/p", attr := "a1", value := "zz" },
   { label := "ab", path := "/p", attr := "a2", value := "zz" },
   { label := "ab", path := "/p", attr := "a3", value := "zz" },
   { label := "ab", path := "/p", attr := "a4", value := "zz" }]

/-- The group `secret.search c9terms "ab"` produces. -/
def c9group : PathPrioMatches := { path := "/p", prio := 1, terms := c9terms }

/-- The Match tuple built for `c9group`. -/
def c9result : MatchResult :=
  { data := "/p", text := "ab", icon := ICON_STR, mtype := 100, relevance := 1,
    subtext := "a1:zz, a2:zz, a3:zz, a4:zz" }

/-- A runner state holding `c9terms` with a live staleness timer. -/
def c9kstate : KState := { terms := c9terms, refresh_timer := some 7 }

/-- Modelled from the spec: the claimed subtext of a ranked group — the
space-joined top-3 scoring attribute values, ties broken by scan order. -/
def specRankedGroupSubtext (st : String) (g : PathPrioMatches) : String :=
  " ".intercalate
    (((pySortedDescBy (fun t => score st t.value) g.terms).take 3).map Term.value)

/-- Counterexample to claim C9 as stated: on a group with four matched
attributes, `Match` shows the comma-joined `attr:value` pairs of all four
terms, not the space-joined top-3 scoring values the claim describes. -/
theorem kMatch_subtext_counterexample :
    (kMatch c9kstate "pass ab" none 8).2 = .ok [c9result] ∧
    secretSearch c9terms "ab" = [c9group] ∧
    specRankedGroupSubtext "ab" c9group = "zz zz zz" ∧
    c9result.subtext = "a1:zz, a2:zz, a3:zz, a4:zz" ∧
    c9result.subtext ≠ specRankedGroupSubtext "ab" c9group := by
  refine ⟨by decide, by decide, by decide, by decide, by decide⟩

/-- Witness for C9's amended theorem at the concrete group `c9group`. -/
theorem secretSearch_group_prio_subtext_witness :
    (c9group ∈ secretSearch c9terms "ab") ∧
    (buildOut c9group = .ok c9result) ∧
    (c9group.terms ≠ [] ∧
      (∃ t ∈ c9group.terms,
        score "ab" t.label = c9group.prio ∨ score "ab" t.value = c9group.prio) ∧
      (∀ t ∈ c9group.terms,
        score "ab" t.label ≤ c9group.prio ∧ score "ab" t.value ≤ c9group.prio)) ∧
    (c9result.relevance = c9group.prio ∧
      c9result.subtext =
        ", ".intercalate (c9group.terms.map (fun t => t.attr ++ ":" ++ t.value))) :=
  ⟨by decide, by decide,
   (secretSearch_group_prio_subtext c9terms "ab").1 c9group (by decide),
   (secretSearch_group_prio_subtext c9terms "ab").2 c9group c9result (by decide)⟩

/-! ## mi_krunner_bwcli.py: the bwcli variant's Runner -/

/-- The integer module-level constants defined in mi_krunner_bwcli.py (lines
31-36).  `BWCLI_CHECK_DELAY`, used at line 112 to arm the debounce timer, is
not among them and is defined nowhere in the module or its imports, so
evaluating it raises `NameError`. -/
def miModuleIntConstants : List (String × ℤ) :=
  [("CLIPBOARD_TIMEOUT", 5), ("LOCK_TIMEOUT", 3600),
   ("BWCLI_SYNC_TIMEOUT", 600), ("MAX_NR_OF_MATCHES", 4)]

/-- Python name lookup among the module's integer constants. -/
def lookupModuleConstant (n : String) : Option ℤ :=
  (miModuleIntConstants.find? (fun p => decide (p.1 = n))).map Prod.snd

/-- Embeds `Waiting`: the pending debounced query `(timer, query, callback)`. -/
structure Waiting where
  timer : ℕ
  query : String
  cb : ℕ
deriving DecidableEq

/-- The mutable state of mi_krunner_bwcli's `Runner`, together with the GLib
timer sources currently armed (split by callback kind: debounce-search timers
and clipboard-clear timers) and the clipboard contents.  Callbacks are
identified by numeric ids. -/
structure MiState where
  hasSession : Bool
  wait : Option Waiting
  clear_clipboard_timer : Option ℕ
  armedSearch : List ℕ
  armedClear : List ℕ
  clipboard : Option String
deriving DecidableEq

/-- Embeds `mi_krunner_bwcli.Runner.Match` (lines 87-115).  Returns the new state,
the callback invocations `(callback id, reply)` performed by the call in
order, and whether the call raised (`NameError: name 'BWCLI_CHECK_DELAY' is
not defined`, looked up while arming the debounce timer — evaluated before
`GLib.timeout_add_seconds` runs, so no timer is armed and `self.wait` is not
reassigned). -/
def miMatch (s : MiState) (query : String) (cb : ℕ) (freshTimer : ℕ) :
    MiState × List (ℕ × List MatchResult) × Bool :=
  if pyStartsWith query TRIGGER then
    if s.hasSession then
      let q := pyStrip (pyDrop query TRIGGER.length)
      if q = "" then (s, [(cb, [])], false)
      else
        match s.wait with
        | some w =>
          let s1 : MiState := { s with armedSearch := s.armedSearch.erase w.timer }
          match lookupModuleConstant "BWCLI_CHECK_DELAY" with
          | none => (s1, [(w.cb, [])], true)
          | some _ =>
            ({ s1 with wait := some { timer := freshTimer, query := q, cb := cb },
                       armedSearch := s1.armedSearch ++ [freshTimer] },
             [(w.cb, [])], false)
        | none =>
          match lookupModuleConstant "BWCLI_CHECK_DELAY" with
          | none => (s, [], true)
          | some _ =>
            ({ s with wait := some { timer := freshTimer, query := q, cb := cb },
                      armedSearch := s.armedSearch ++ [freshTimer] },
             [], false)
    else (s, [(cb, [lockedPseudo80])], false)
  else (s, [(cb, [])], false)

/-- The runner state with an unlocked session and no pending query. -/
def miReadyState : MiState :=
  { hasSession := true, wait := none, clear_clipboard_timer := none,
    armedSearch := [], armedClear := [], clipboard := none }

/-- Claim C1: the claim says each submitted query's callback is invoked
exactly once (ranked results, or an empty list when superseded).  In fact any
trigger-prefixed, unlocked, non-empty query reaches the undefined name
`BWCLI_CHECK_DELAY` and raises `NameError` before arming the debounce timer:
submitting `"pass mar"` and then `"pass mart"` invokes neither callback (the
invocation lists are empty and both calls raise), and leaves the state
unchanged. -/
theorem miMatch_nameError_no_callback :
    lookupModuleConstant "BWCLI_CHECK_DELAY" = none ∧
    miMatch miReadyState "pass mar" 1 101 = (miReadyState, [], true) ∧
    miMatch miReadyState "pass mart" 2 102 = (miReadyState, [], true) := by
  refine ⟨by decide, by decide, by decide⟩

/-- The runner state with no session. -/
def miLockedState : MiState :=
  { hasSession := false, wait := none, clear_clipboard_timer := none,
    armedSearch := [], armedClear := [], clipboard := none }

/-- Counterexample to claim C8 as stated: in the bwcli variant the session
check precedes the empty-remainder check, so with no session a
trigger-plus-whitespace query is answered with the unlock pseudo-result, not
with the empty list. -/
theorem miMatch_whitespace_locked_counterexample :
    pyStartsWith "pass   " TRIGGER = true ∧
    pyStrip (pyDrop "pass   " TRIGGER.length) = "" ∧
    miMatch miLockedState "pass   " 1 101 = (miLockedState, [(1, [lockedPseudo80])], false) ∧
    [(1, [lockedPseudo80])] ≠ [((1 : ℕ), ([] : List MatchResult))] := by
  refine ⟨by decide, by decide, by decide, by decide⟩

/-- Claim C8, amended: for a query that is the trigger prefix followed by only
whitespace, the secret-storage variant's Match answers `[]` immediately in
every state; the bwcli variant does so whenever a session is present, but with
no session its session check fires first and returns the unlock
pseudo-result instead. -/
theorem match_empty_remainder_spec (query : String) (s : KState)
    (conn : Option (List SSCollection)) (ft : ℕ) (ms : MiState) (cb ftm : ℕ)
    (h1 : pyStartsWith query TRIGGER = true)
    (h2 : pyStrip (pyDrop query TRIGGER.length) = "") :
    kMatch s query conn ft = (s, .ok []) ∧
    (ms.hasSession = true → miMatch ms query cb ftm = (ms, [(cb, [])], false)) ∧
    (ms.hasSession = false →
      miMatch ms query cb ftm = (ms, [(cb, [lockedPseudo80])], false)) := by
  refine ⟨?_, ?_, ?_⟩
  · unfold kMatch
    rw [h1]
    simp [h2]
  · intro hs
    unfold miMatch
    rw [h1, hs]
    simp [h2]
  · intro hs
    unfold miMatch
    rw [h1, hs]
    simp

/-- Witness for C8's amended theorem at the query `"pass  "`. -/
theorem match_empty_remainder_spec_witness :
    pyStartsWith "pass  " TRIGGER = true ∧
    pyStrip (pyDrop "pass  " TRIGGER.length) = "" ∧
    (kMatch c9kstate "pass  " none 3 = (c9kstate, .ok []) ∧
     (miReadyState.hasSession = true →
       miMatch miReadyState "pass  " 1 4 = (miReadyState, [(1, [])], false)) ∧
     (miReadyState.hasSession = false →
       miMatch miReadyState "pass  " 1 4 = (miReadyState, [(1, [lockedPseudo80])], false))) :=
  ⟨by decide, by decide,
   match_empty_remainder_spec "pass  " c9kstate none 3 miReadyState 1 4
     (by decide) (by decide)⟩

/-- The `data` argument of `Run`: the unlock sentinel string or a
JSON-encoded `[username, password]` pair (modelled structurally). -/
inductive RunData where
  | locked
  | cred (username password : String)
deriving DecidableEq

/-- The outcome of `bwcli.login()` as the runner state sees it (bwcli.py
lines 31-48): unlock succeeded, the bw tool was missing (exit 127, session
untouched), or unlock failed otherwise. -/
inductive LoginOutcome where
  | success
  | toolMissing
  | failed
deriving DecidableEq

/-- The constant `ACTION_2 = 'trigger_shift_alternative'`. -/
def ACTION_2_STR : String := "trigger_shift_alternative"

/-- Embeds `mi_krunner_bwcli.Runner.Run` (lines 169-192): cancel a pending
clipboard-clear timer if any (the handle field is left stale), then either
log in (unlock sentinel), copy the username (alternate action, no timer), or
copy the password and arm a fresh clear timer. -/
def miRun (s : MiState) (data : RunData) (action_id : String) (freshTimer : ℕ)
    (login : LoginOutcome) : MiState :=
  let s1 := match s.clear_clipboard_timer with
    | some t => { s with armedClear := s.armedClear.erase t }
    | none => s
  match data with
  | .locked =>
    match login with
    | .success => { s1 with hasSession := true }
    | .toolMissing => s1
    | .failed => { s1 with hasSession := false }
  | .cred u p =>
    if action_id = ACTION_2_STR then { s1 with clipboard := some u }
    else { s1 with clipboard := some p,
                   clear_clipboard_timer := some freshTimer,
                   armedClear := s1.armedClear ++ [freshTimer] }

/-- Firing the clipboard-clear timeout `clear_clipboard` (lines 164-167):
only an armed timer can fire; it clears the clipboard and the handle. -/
def fireClearClipboard (s : MiState) (tid : ℕ) : Option MiState :=
  if tid ∈ s.armedClear then
    some { s with clipboard := none,
                  armedClear := s.armedClear.erase tid,
                  clear_clipboard_timer := none }
  else none

/-- Claim C10: invoking `Run` with the alternate copy-username action while a
clipboard-clear timer is armed cancels that timer and arms no new one: no
clipboard-clear timer remains armed afterwards, none can fire, and the
username stays on the clipboard. -/
theorem miRun_copy_username_cancels_clear (s : MiState) (t ft : ℕ)
    (u p : String) (login : LoginOutcome)
    (h1 : s.clear_clipboard_timer = some t) (h2 : s.armedClear = [t]) :
    (miRun s (.cred u p) ACTION_2_STR ft login).armedClear = [] ∧
    (miRun s (.cred u p) ACTION_2_STR ft login).clipboard = some u ∧
    (∀ tid : ℕ,
      fireClearClipboard (miRun s (.cred u p) ACTION_2_STR ft login) tid = none) := by
  have herase : s.armedClear.erase t = [] := by rw [h2]; simp
  unfold miRun
  rw [h1]
  simp only [if_pos rfl]
  refine ⟨by simp [herase], by simp, ?_⟩
  intro tid
  unfold fireClearClipboard
  simp [herase]

/-- A state with a pending clipboard-clear timer (handle 5). -/
def c10state : MiState :=
  { hasSession := true, wait := none, clear_clipboard_timer := some 5,
    armedSearch := [], armedClear := [5], clipboard := some "hunter2" }

/-- Witness for C10 at `c10state`. -/
theorem miRun_copy_username_cancels_clear_witness :
    c10state.clear_clipboard_timer = some 5 ∧ c10state.armedClear = [5] ∧
    ((miRun c10state (.cred "joe" "pw") ACTION_2_STR 9 .success).armedClear = [] ∧
     (miRun c10state (.cred "joe" "pw") ACTION_2_STR 9 .success).clipboard = some "joe" ∧
     (∀ tid : ℕ,
       fireClearClipboard (miRun c10state (.cred "joe" "pw") ACTION_2_STR 9 .success) tid = none)) :=
  ⟨by decide, by decide,
   miRun_copy_username_cancels_clear c10state 5 9 "joe" "pw" .success
     (by decide) (by decide)⟩

/-! ## bwcli.py: the session state machine (`__call`, `sync`, `lock`) -/

/-- The `Bwcli` connection state: the session cookie and the log of backend
commands actually executed (`run(['bw', ...])`). -/
structure BwState where
  session : Option String
  issued : List (List String)
deriving DecidableEq

/-- What the `bw` subprocess would answer: its exit code and its parsed JSON
response, reduced to the two features the source consults — whether the
parsed value is truthy, and its `success` field
(`response.get('success', False) == True`). -/
structure ProcOutcome where
  rc : ℤ
  truthy : Bool
  success : Bool
deriving DecidableEq

/-- Embeds `Bwcli.__call` (bwcli.py lines 50-61): without a session, skip and return
`None`; on exit 0 return the parsed response; otherwise clear the session and
return `None`. -/
def bwCall (s : BwState) (args : List String) (p : ProcOutcome) :
    BwState × Option ProcOutcome :=
  if s.session = none then (s, none)
  else
    let s1 : BwState := { s with issued := s.issued ++ [args] }
    if p.rc = 0 then (s1, some p)
    else ({ s1 with session := none }, none)

/-- Embeds `Bwcli.has_session` (line 88): `bool(self.__session)` — session cookies
are non-empty strings, so presence is what matters. -/
def has_session (s : BwState) : Bool := s.session.isSome

/-- Embeds `Bwcli.sync` (bwcli.py lines 70-79). -/
def bwSync (s : BwState) (p : ProcOutcome) : BwState × Bool :=
  if has_session s then
    let r := bwCall s ["sync"] p
    match r.2 with
    | some j => if j.truthy && j.success then (r.1, true) else (r.1, false)
    | none => (r.1, false)
  else (s, false)

/-- Embeds `Bwcli.lock` (bwcli.py lines 81-86): clear the session first, then ask
`__call` to run `lock` — which refuses because the session is already gone. -/
def bwLock (s : BwState) (p : ProcOutcome) : BwState :=
  if has_session s then
    (bwCall { s with session := none } ["lock"] p).1
  else s

/-- Counterexample to claim C3 as stated: when the `bw sync` process exits
non-zero, `sync()` returns `False` and the session has been cleared by
`__call`, so `hasSession` flips from true to false — the session is not left
unchanged on every failure. -/
theorem bwSync_nonzero_exit_clears_session :
    (bwSync ⟨some "key", []⟩ ⟨1, true, true⟩).2 = false ∧
    (bwSync ⟨some "key", []⟩ ⟨1, true, true⟩).1.session = none ∧
    has_session ⟨some "key", []⟩ = true ∧
    has_session (bwSync ⟨some "key", []⟩ ⟨1, true, true⟩).1 = false := by
  refine ⟨by decide, by decide, by decide, by decide⟩

/-- Claim C3, amended: when `sync()` returns `False`, the session is unchanged
(and `hasSession` with it) whenever the backend call exited zero — an
unsuccessful response body is not fatal — or there was no session to begin
with; but a non-zero exit of the backend call clears the session to
`NoSession`, per the general backend-failure rule. -/
theorem bwSync_failure_session_spec (s : BwState) (p : ProcOutcome)
    (h : (bwSync s p).2 = false) :
    ((p.rc = 0 ∨ s.session = none) →
      ((bwSync s p).1.session = s.session ∧
       has_session (bwSync s p).1 = has_session s)) ∧
    ((p.rc ≠ 0 ∧ s.session ≠ none) → (bwSync s p).1.session = none) := by
  cases hs : s.session with
  | none =>
    have hns : has_session s = false := by
      unfold has_session
      rw [hs]
      rfl
    constructor
    · intro _
      unfold bwSync
      rw [hns]
      exact ⟨hs, hns⟩
    · intro hc
      exact absurd rfl hc.2
  | some k =>
    have hcall : bwSync s p =
        if p.rc = 0 then
          (if p.truthy && p.success then
            ({ s with issued := s.issued ++ [["sync"]] }, true)
           else ({ s with issued := s.issued ++ [["sync"]] }, false))
        else ({ s with session := none, issued := s.issued ++ [["sync"]] }, false) := by
      unfold bwSync bwCall has_session
      rw [hs]
      by_cases hrc : p.rc = 0
      · by_cases hts : (p.truthy && p.success) = true
        · simp [hrc, hts]
        · simp [hrc, hts]
      · simp [hrc]
    by_cases hrc : p.rc = 0
    · rw [if_pos hrc] at hcall
      by_cases hts : (p.truthy && p.success) = true
      · rw [if_pos hts] at hcall
        rw [hcall] at h
        simp at h
      · rw [if_neg hts] at hcall
        constructor
        · intro _
          rw [hcall]
          unfold has_session
          exact ⟨hs, rfl⟩
        · intro hc
          exact absurd hrc hc.1
    · rw [if_neg hrc] at hcall
      constructor
      · intro hd
        rcases hd with hd | hd
        · exact absurd hd hrc
        · cases hd
      · intro _
        rw [hcall]

/-- Witness for C3's amended theorem: exit 0 with `success: false` — sync
fails but the session survives. -/
theorem bwSync_failure_session_spec_witness :
    (bwSync ⟨some "k", []⟩ ⟨0, true, false⟩).2 = false ∧
    ((((0 : ℤ) = 0 ∨ (some "k" : Option String) = none) →
      ((bwSync ⟨some "k", []⟩ ⟨0, true, false⟩).1.session = some "k" ∧
       has_session (bwSync ⟨some "k", []⟩ ⟨0, true, false⟩).1 =
         has_session ⟨some "k", []⟩)) ∧
     (((0 : ℤ) ≠ 0 ∧ (some "k" : Option String) ≠ none) →
       (bwSync ⟨some "k", []⟩ ⟨0, true, false⟩).1.session = none)) :=
  ⟨by decide, bwSync_failure_session_spec ⟨some "k", []⟩ ⟨0, true, false⟩ (by decide)⟩

/-- Claim C6: `lock()` does leave the runner sessionless from every starting
state (first conjunct) — but it never actually issues the external `lock`
command: the session is cleared before `__call('lock')` runs, and `__call`
refuses to execute without a session, so the log of executed backend commands
is unchanged from any state; concretely, locking from the unlocked state
executes nothing. -/
theorem bwLock_session_and_no_command :
    (∀ (s : BwState) (p : ProcOutcome),
      (bwLock s p).session = none ∧ (bwLock s p).issued = s.issued) ∧
    bwLock ⟨some "key", []⟩ ⟨0, true, true⟩ = ⟨none, []⟩ := by
  refine ⟨?_, by decide⟩
  intro s p
  unfold bwLock has_session bwCall
  cases hs : s.session with
  | none => simp [hs]
  | some k => simp [hs]

end KBW
